import Mathlib

/-!
Shallow embedding of the outboxen transactional-outbox processor
(`pkg/outbox/outbox.go`, `pkg/outbox/interface.go`, the configuration in
`config.go`, and the fake storage in `pkg/fake/storage.go`), together with
proofs about its configuration defaulting, wake-signal coalescing,
claim/lease semantics, batch processing and partial-failure reconciliation.

Conventions used throughout:
* Go `time.Time` and `time.Duration` values are modelled as `Int`
  (nanoseconds); e.g. `10 * time.Second` is `10000000000`.
* Go byte slices (`[]byte`) are modelled as `String`.
* Nil-able Go interface values are modelled as `Option` of an opaque tag
  type (`Nat`) or of a small inductive holding the distinguished default
  implementation (real clock, discard logger).
* Go maps iterated with `range` have unspecified iteration order; the
  embedding fixes first-appearance order of the keys, which is one of the
  orders Go may produce.  Theorems that depend on the order are stated for
  batches where the order is immaterial (single namespace / no errors).
-/

/-- Message mirrors `outbox.Message`: an optional partition `Key` and a
`Payload`, both byte sequences. -/
structure Message where
  key : String
  payload : String
deriving DecidableEq, Repr

/-- Entry mirrors `outbox.Entry`: a durable outbox record with lease state.
The Go field `Namespace` is spelt `nspace` because `namespace` is a Lean
keyword. -/
structure Entry where
  id : String
  createdAt : Int
  key : String
  payload : String
  nspace : String
  processorID : String
  processingDeadline : Option Int
deriving DecidableEq, Repr

/-- State of the fake `fake.EntryStorage`: its clock's current time and the
slice of stored entries. -/
structure StorageState where
  now : Int
  entries : List Entry
deriving DecidableEq, Repr

/-- Clock interface values: `clockwork.NewRealClock()` or some other
implementation, represented opaquely by a tag. -/
inductive ClockVal where
  | realClock
  | custom (tag : Nat)
deriving DecidableEq, Repr

/-- Logger interface values: `logr.DiscardLogger` or some other
implementation, represented opaquely by a tag. -/
inductive LoggerVal where
  | discardLogger
  | custom (tag : Nat)
deriving DecidableEq, Repr

/-- DefaultProcessInterval is `10 * time.Second` in nanoseconds. -/
def DefaultProcessInterval : Int := 10000000000

/-- DefaultClaimDuration is `2 * time.Second` in nanoseconds. -/
def DefaultClaimDuration : Int := 2000000000

/-- DefaultBatchSize is 20. -/
def DefaultBatchSize : Int := 20

/-- Config mirrors `outbox.Config`.  Interface-typed fields (`Clock`,
`Storage`, `Publisher`, `Logger`) are nil-able, hence `Option`. -/
structure Config where
  clock : Option ClockVal
  storage : Option Nat
  publisher : Option Nat
  processInterval : Int
  claimDuration : Int
  processorID : String
  batchSize : Int
  logger : Option LoggerVal
deriving DecidableEq, Repr

/-- Config.defaultAndValidate mirrors `Config.DefaultAndValidate`: reject a
missing storage, publisher or processor ID, then fill in defaults for the
unset optional fields (Go mutates the receiver; the embedding returns the
updated configuration). -/
def Config.defaultAndValidate (c : Config) : Except String Config :=
  if c.storage.isNone then .error "no storage provided"
  else if c.publisher.isNone then .error "no publisher provided"
  else if c.processorID = "" then .error "no processor ID provided"
  else .ok { c with
    clock := if c.clock.isNone then some .realClock else c.clock
    logger := if c.logger.isNone then some .discardLogger else c.logger
    processInterval :=
      if c.processInterval = 0 then DefaultProcessInterval else c.processInterval
    claimDuration :=
      if c.claimDuration = 0 then DefaultClaimDuration else c.claimDuration
    batchSize := if c.batchSize < 1 then DefaultBatchSize else c.batchSize }

/-- WakeChannel models the Go channel `make(chan struct, 1)` backing
`Outbox.wakeSignal`: a bounded buffer with its capacity, the number of
tokens currently buffered, and whether the channel has been closed. -/
structure WakeChannel where
  capacity : Nat
  buffered : Nat
  closed : Bool
deriving DecidableEq, Repr

/-- newWakeSignal mirrors `New`: `wakeSignal: make(chan struct, 1)` — an
open channel of capacity 1 with nothing buffered.  (`none` models a nil
`wakeSignal` field.) -/
def newWakeSignal : Option WakeChannel := some ⟨1, 0, false⟩

/-- wakeProcessor mirrors `Outbox.WakeProcessor`: under the read lock, a
nil channel is a no-op, otherwise a `select` with a `default` branch
enqueues a token only when buffer space is available.  The `closed` guard
is modelled from the spec: teardown code closing the channel is not part of
the sources here, and the spec states a post-teardown call is a no-op. -/
def wakeProcessor : Option WakeChannel → Option WakeChannel
  | none => none
  | some ch =>
      if !ch.closed && ch.buffered < ch.capacity then
        some { ch with buffered := ch.buffered + 1 }
      else some ch

/-- wakeTokens counts the wake tokens currently queued in the channel. -/
def wakeTokens : Option WakeChannel → Nat
  | none => 0
  | some ch => ch.buffered

/-- eligibleForClaim states, for the fake store, when an entry may be
(re)claimed: no owning processor, no processing deadline, or a deadline
that has already passed (read inclusively: `now` is not strictly before
it, matching `!now.Before(deadline)` in the source). -/
def eligibleForClaim (now : Int) (e : Entry) : Bool :=
  e.processorID == "" ||
    match e.processingDeadline with
    | none => true
    | some d => decide (d ≤ now)

/-- claimEntries mirrors `fake.EntryStorage.ClaimEntries`: walk the entries
and skip exactly those with a non-empty processor ID and an unexpired
deadline (`now.Before(*entry.ProcessingDeadline)`); every other entry is
assigned to the claiming processor with the given deadline. -/
def claimEntries (s : StorageState) (processorID : String)
    (claimDeadline : Int) : StorageState :=
  { s with entries := s.entries.map (fun e =>
      if e.processorID != "" &&
          (match e.processingDeadline with
           | some d => decide (s.now < d)
           | none => false) then
        e
      else
        { e with processorID := processorID,
                 processingDeadline := some claimDeadline }) }

/-- getClaimedEntriesAux is the loop of `fake.EntryStorage.GetClaimedEntries`:
collect entries owned by the processor, stopping once the batch reaches
`batchSize` (a Go `int`, hence `Int` here). -/
def getClaimedEntriesAux (processorID : String) (batchSize : Int)
    (acc : List Entry) : List Entry → List Entry
  | [] => acc.reverse
  | e :: rest =>
      if e.processorID == processorID then
        let acc' := e :: acc
        if (acc'.length : Int) ≥ batchSize then acc'.reverse
        else getClaimedEntriesAux processorID batchSize acc' rest
      else getClaimedEntriesAux processorID batchSize acc rest

/-- getClaimedEntries mirrors `fake.EntryStorage.GetClaimedEntries`. -/
def getClaimedEntries (s : StorageState) (processorID : String)
    (batchSize : Int) : List Entry :=
  getClaimedEntriesAux processorID batchSize [] s.entries

/-- deleteEntries mirrors `fake.EntryStorage.DeleteEntries`: keep exactly
the entries whose ID is not among the requested IDs (deleting a
non-existent ID is not an error). -/
def deleteEntries (s : StorageState) (entryIDs : List String) :
    StorageState :=
  { s with entries := s.entries.filter (fun e => !(entryIDs.contains e.id)) }

/-- PubErr models the outcome shapes of a failed `Publisher.Publish` call:
a positional `outbox.PublishError` (one optional error per message, `none`
meaning that message was published), or any other error value.  The
`fmt.Errorf("error publishing: %w", err)` wrapping in `processBatch` is
transparent to `errors.As` and therefore not modelled separately. -/
inductive PubErr where
  | positional (errs : List (Option String))
  | other (msg : String)
deriving DecidableEq, Repr

/-- BatchError is the error returned by `processBatch`: the publish error,
the delete error, or — via `multierr.Combine` — both of them together. -/
inductive BatchError where
  | publishOnly (e : PubErr)
  | deleteOnly (d : String)
  | combined (e : PubErr) (d : String)
deriving DecidableEq, Repr

/-- PubBehaviour models the external `Publisher`: for a namespace and a
batch of messages it either succeeds (`none`) or fails with some error. -/
def PubBehaviour : Type := String → List Message → Option PubErr

/-- entryMessage mirrors the mapping in `processBatch`:
`Message{Key: entry.Key, Payload: entry.Payload}`. -/
def entryMessage (e : Entry) : Message := ⟨e.key, e.payload⟩

/-- pickNilIDs mirrors the loop in `processBatch`'s deferred
reconciliation: `for idx, err := range publishErr.Errors`, keeping
`entryIDs[idx]` exactly when that position's error is nil.  (Go would
panic indexing past `entryIDs`; that case is unreachable whenever the
`Errors` slice correlates 1:1 with the batch.) -/
def pickNilIDs : List (Option String) → List String → List String
  | [], _ => []
  | _ :: _, [] => []
  | some _ :: errs, _ :: ids => pickNilIDs errs ids
  | none :: errs, i :: ids => i :: pickNilIDs errs ids

/-- insertNamespaced models one step of building the Go map
`namespaced[entry.Namespace] = append(...)`, as an association list whose
keys are in first-appearance order. -/
def insertNamespaced (m : List (String × List Message)) (ns : String)
    (msg : Message) : List (String × List Message) :=
  match m with
  | [] => [(ns, [msg])]
  | (k, v) :: rest =>
      if k = ns then (k, v ++ [msg]) :: rest
      else (k, v) :: insertNamespaced rest ns msg

/-- buildNamespaced models the whole `namespaced` map built by the fetch
loop of `processBatch`. -/
def buildNamespaced (entries : List Entry) : List (String × List Message) :=
  entries.foldl (fun m e => insertNamespaced m e.nspace (entryMessage e)) []

/-- publishPhase models the `for namespace, messages := range namespaced`
loop of `processBatch`: publish group after group and stop at the first
failure (Go returns there; the deferred reconciliation still runs).  It
returns the publish calls actually issued and the error of the failed
call, if any. -/
def publishPhase (pub : PubBehaviour) :
    List (String × List Message) →
      List (String × List Message) × Option PubErr
  | [] => ([], none)
  | (ns, msgs) :: rest =>
      match pub ns msgs with
      | some e => ([(ns, msgs)], some e)
      | none =>
          let r := publishPhase pub rest
          ((ns, msgs) :: r.1, r.2)

/-- BatchResult collects the observable outcome of one `processBatch`
call: the `more` flag, the publish calls issued, the ID set handed to
`DeleteEntries` by the deferred reconciliation, and the returned error. -/
structure BatchResult where
  more : Bool
  publishCalls : List (String × List Message)
  deleteCall : List String
  error : Option BatchError
deriving DecidableEq, Repr

/-- processBatch mirrors `Outbox.processBatch` after a successful
`GetClaimedEntries` call, parameterised by the fetched entries, the
publisher's behaviour, and the storage's response to the always-attempted
`DeleteEntries` call.  The deferred reconciliation keeps every entry ID
when publish succeeded, the IDs at nil positions of a positional
`PublishError` (found via `errors.As`), and nothing for any other error
shape; a delete failure is combined with the publish error by
`multierr.Combine`. -/
def processBatch (entries : List Entry) (batchSize : Int)
    (pub : PubBehaviour) (deleteOp : List String → Option String) :
    BatchResult :=
  let more := decide ((entries.length : Int) ≥ batchSize)
  let entryIDs := entries.map (·.id)
  let published := publishPhase pub (buildNamespaced entries)
  let deletableIDs :=
    match published.2 with
    | none => entryIDs
    | some (.positional errs) => pickNilIDs errs entryIDs
    | some (.other _) => []
  let error :=
    match published.2, deleteOp deletableIDs with
    | none, none => none
    | some e, none => some (.publishOnly e)
    | none, some d => some (.deleteOnly d)
    | some e, some d => some (.combined e d)
  ⟨more, published.1, deletableIDs, error⟩

/-- processBatchFake is `processBatch` run against the fake
`EntryStorage`, whose `DeleteEntries` never fails: it also performs the
deletion on the storage state. -/
def processBatchFake (s : StorageState) (pid : String) (batchSize : Int)
    (pub : PubBehaviour) : BatchResult × StorageState :=
  let r := processBatch (getClaimedEntries s pid batchSize) batchSize pub
    (fun _ => none)
  (r, deleteEntries s r.deleteCall)

/-- DrainResult records one `PumpOutbox` drain: how many `processBatch`
calls were made, all publish calls issued, the `more` flag of the last
batch, the first error, and the final storage state. -/
structure DrainResult where
  calls : Nat
  publishCalls : List (String × List Message)
  lastMore : Bool
  error : Option BatchError
  state : StorageState
deriving DecidableEq, Repr

/-- drainLoop models the `for { processBatch; if error return; if !more
break }` loop of `PumpOutbox` over the fake storage.  The fuel bounds the
number of iterations (the Go loop runs forever when `more` never clears,
e.g. for a non-positive batch size); `none` means the fuel ran out. -/
def drainLoop (pid : String) (batchSize : Int) (pub : PubBehaviour) :
    Nat → StorageState → Option DrainResult
  | 0, _ => none
  | fuel + 1, s =>
      let p := processBatchFake s pid batchSize pub
      if p.1.error.isSome then
        some ⟨1, p.1.publishCalls, p.1.more, p.1.error, p.2⟩
      else if p.1.more then
        match drainLoop pid batchSize pub fuel p.2 with
        | none => none
        | some d =>
            some ⟨d.calls + 1, p.1.publishCalls ++ d.publishCalls,
              d.lastMore, d.error, d.state⟩
      else some ⟨1, p.1.publishCalls, p.1.more, none, p.2⟩

/-- pumpOutbox mirrors `Outbox.PumpOutbox` over the fake storage: claim
everything claimable with deadline `now + ClaimDuration`, then drain
batches until `more` is false or a batch fails.  The fuel
`entries.length + 1` suffices for every positive batch size, because every
continued iteration deletes at least one stored entry. -/
def pumpOutbox (s : StorageState) (pid : String)
    (batchSize claimDuration : Int) (pub : PubBehaviour) :
    Option DrainResult :=
  let s₁ := claimEntries s pid (s.now + claimDuration)
  drainLoop pid batchSize pub (s₁.entries.length + 1) s₁

/-- claimedCount counts the stored entries currently owned by the given
processor ID — the entries `GetClaimedEntries` draws from. -/
def claimedCount (s : StorageState) (pid : String) : Nat :=
  (s.entries.filter (fun e => e.processorID == pid)).length

/-- scenarioState is the storage of concrete test scenario 4: one
unclaimed entry with key `test-key` and payload `test-payload`. -/
def scenarioState : StorageState :=
  ⟨0, [⟨"entry-1", 0, "test-key", "test-payload", "", "", none⟩]⟩

/-- cexTwoState: two entries with distinct IDs, both already claimed by
processor `p` under an unexpired lease, sharing the empty namespace — a
concrete batch used by witnesses. -/
def cexTwoState : StorageState :=
  ⟨0, [⟨"a", 0, "k1", "v1", "", "p", some 5⟩,
       ⟨"b", 0, "k2", "v2", "", "p", some 5⟩]⟩

/-- cexPartialPub: a publisher that fails any batch with a positional
error marking the first message failed and the second delivered. -/
def cexPartialPub : PubBehaviour :=
  fun _ _ => some (.positional [some "x", none])

/-- C5: construction fails exactly when storage, publisher or processor ID
is missing; with the required fields set and every optional field unset the
effective configuration is real clock, discard logger, 10s process
interval, 2s claim duration, batch size 20; and any provided batch size
below 1 is coerced to the default. -/
theorem config_defaultAndValidate_spec :
    (∀ c : Config, (∃ e, c.defaultAndValidate = .error e) ↔
      (c.storage = none ∨ c.publisher = none ∨ c.processorID = "")) ∧
    (∀ st pb : Nat, ∀ pid : String, pid ≠ "" →
      Config.defaultAndValidate ⟨none, some st, some pb, 0, 0, pid, 0, none⟩ =
        .ok ⟨some .realClock, some st, some pb, 10000000000, 2000000000, pid,
          20, some .discardLogger⟩) ∧
    (∀ c c' : Config, c.defaultAndValidate = .ok c' → c.batchSize < 1 →
      c'.batchSize = 20) := by
  refine ⟨fun c => ?_, fun st pb pid hpid => ?_, fun c c' hok hb => ?_⟩
  · unfold Config.defaultAndValidate
    constructor
    · rintro ⟨e, he⟩
      by_cases hs : c.storage.isNone
      · exact Or.inl (Option.isNone_iff_eq_none.mp hs)
      · by_cases hp : c.publisher.isNone
        · exact Or.inr (Or.inl (Option.isNone_iff_eq_none.mp hp))
        · by_cases hi : c.processorID = ""
          · exact Or.inr (Or.inr hi)
          · simp [hs, hp, hi] at he
    · intro h
      rcases h with h | h | h
      · simp [h]
      · rcases hs : c.storage with _ | s
        · simp [hs]
        · simp [hs, h]
      · rcases hs : c.storage with _ | s
        · simp [hs]
        · rcases hp : c.publisher with _ | p
          · simp [hs, hp]
          · simp [hs, hp, h]
  · simp [Config.defaultAndValidate, hpid, DefaultProcessInterval,
      DefaultClaimDuration, DefaultBatchSize]
  · unfold Config.defaultAndValidate at hok
    by_cases hs : c.storage.isNone
    · simp [hs] at hok
    · by_cases hp : c.publisher.isNone
      · simp [hs, hp] at hok
      · by_cases hi : c.processorID = ""
        · simp [hs, hp, hi] at hok
        · simp only [hs, hp, hi, if_false, Bool.false_eq_true,
            Except.ok.injEq] at hok
          subst hok
          simp [hb, DefaultBatchSize]

/-- Witness for C5: the fully-defaulted configuration at concrete inputs. -/
theorem config_defaultAndValidate_spec_witness :
    Config.defaultAndValidate ⟨none, some 0, some 1, 0, 0, "p1", 0, none⟩ =
      .ok ⟨some .realClock, some 0, some 1, 10000000000, 2000000000, "p1",
        20, some .discardLogger⟩ :=
  config_defaultAndValidate_spec.2.1 0 1 "p1" (by decide)

/-- C6: DefaultAndValidate is idempotent — a configuration it has already
defaulted passes validation again with every field unchanged. -/
theorem config_defaultAndValidate_idempotent (c c' : Config)
    (h : c.defaultAndValidate = .ok c') :
    c'.defaultAndValidate = .ok c' := by
  unfold Config.defaultAndValidate at h ⊢
  by_cases hs : c.storage.isNone
  · simp [hs] at h
  · by_cases hp : c.publisher.isNone
    · simp [hs, hp] at h
    · by_cases hi : c.processorID = ""
      · simp [hs, hp, hi] at h
      · simp only [hs, hp, hi, if_false, Bool.false_eq_true,
          Except.ok.injEq] at h
        subst h
        by_cases hc : c.clock = none <;> by_cases hl : c.logger = none <;>
          by_cases hx : c.processInterval = 0 <;>
          by_cases hy : c.claimDuration = 0 <;>
          by_cases hz : c.batchSize < 1 <;>
          simp [hs, hp, hi, hc, hl, hx, hy, hz, DefaultProcessInterval,
            DefaultClaimDuration, DefaultBatchSize]

/-- Witness for C6: idempotence at a concrete already-defaulted
configuration. -/
theorem config_defaultAndValidate_idempotent_witness :
    Config.defaultAndValidate ⟨some .realClock, some 0, some 1, 10000000000,
        2000000000, "p1", 20, some .discardLogger⟩ =
      .ok ⟨some .realClock, some 0, some 1, 10000000000, 2000000000, "p1",
        20, some .discardLogger⟩ :=
  config_defaultAndValidate_idempotent
    ⟨none, some 0, some 1, 0, 0, "p1", 0, none⟩ _ rfl

/-- C10: with the required fields set, validation succeeds and substitutes
the default ProcessInterval and ClaimDuration only when the provided value
is exactly zero — a negative value is kept unchanged — while BatchSize is
replaced for every value below 1. -/
theorem config_defaultAndValidate_negative_durations (c : Config)
    (hs : c.storage ≠ none) (hp : c.publisher ≠ none)
    (hi : c.processorID ≠ "") :
    ∃ c', c.defaultAndValidate = .ok c' ∧
      (c.processInterval < 0 → c'.processInterval = c.processInterval) ∧
      (c.claimDuration < 0 → c'.claimDuration = c.claimDuration) ∧
      (c.batchSize < 1 → c'.batchSize = 20) := by
  have hs' : c.storage.isNone = false := by
    rcases h : c.storage with _ | s
    · exact absurd h hs
    · rfl
  have hp' : c.publisher.isNone = false := by
    rcases h : c.publisher with _ | p
    · exact absurd h hp
    · rfl
  refine ⟨{ c with
      clock := if c.clock.isNone then some .realClock else c.clock,
      logger := if c.logger.isNone then some .discardLogger else c.logger,
      processInterval :=
        if c.processInterval = 0 then DefaultProcessInterval
        else c.processInterval,
      claimDuration :=
        if c.claimDuration = 0 then DefaultClaimDuration
        else c.claimDuration,
      batchSize :=
        if c.batchSize < 1 then DefaultBatchSize else c.batchSize },
    ?_, ?_, ?_, ?_⟩
  · simp [Config.defaultAndValidate, hs', hp', hi]
  · intro hneg
    have hx : ¬ c.processInterval = 0 := by omega
    simp [hx]
  · intro hneg
    have hx : ¬ c.claimDuration = 0 := by omega
    simp [hx]
  · intro hlt
    simp [hlt, DefaultBatchSize]

/-- Witness for C10: a configuration with negative interval and claim
duration and batch size 0 validates, keeping the negative durations. -/
theorem config_defaultAndValidate_negative_durations_witness :
    ∃ c', Config.defaultAndValidate
        ⟨none, some 0, some 1, -5, -7, "p1", 0, none⟩ = .ok c' ∧
      ((-5 : Int) < 0 → c'.processInterval = -5) ∧
      ((-7 : Int) < 0 → c'.claimDuration = -7) ∧
      ((0 : Int) < 1 → c'.batchSize = 20) :=
  config_defaultAndValidate_negative_durations
    ⟨none, some 0, some 1, -5, -7, "p1", 0, none⟩
    (by decide) (by decide) (by decide)

/-- C7: starting from a freshly constructed outbox, any number of
`WakeProcessor` calls with no intervening consumption leaves at most one
wake token queued (each call is a total function of the channel state, so
it trivially neither blocks nor errors). -/
theorem wakeProcessor_coalesces (n : Nat) :
    wakeTokens (wakeProcessor^[n] newWakeSignal) ≤ 1 := by
  have key : ∀ m : Nat, ∃ b ≤ 1,
      wakeProcessor^[m] newWakeSignal = some ⟨1, b, false⟩ := by
    intro m
    induction m with
    | zero => exact ⟨0, by omega, rfl⟩
    | succ k ih =>
      obtain ⟨b, hb, hk⟩ := ih
      rw [Function.iterate_succ_apply', hk]
      by_cases h : b < 1
      · exact ⟨b + 1, by omega, by simp [wakeProcessor, h]⟩
      · exact ⟨b, hb, by simp [wakeProcessor, h]⟩
  obtain ⟨b, hb, hn⟩ := key n
  rw [hn]
  exact hb

/-- C8: ClaimEntries leaves exactly this postcondition — every eligible
entry (no owner, no deadline, or deadline passed relative to the store's
now) is owned by the claiming processor with the given deadline, and every
ineligible entry (unexpired lease under a non-empty processor ID) is
unchanged. -/
theorem claimEntries_postcondition (s : StorageState) (pid : String)
    (dl : Int) :
    (claimEntries s pid dl).entries = s.entries.map (fun e =>
      if eligibleForClaim s.now e then
        { e with processorID := pid, processingDeadline := some dl }
      else e) := by
  show s.entries.map _ = s.entries.map _
  refine List.map_congr_left fun e _ => ?_
  by_cases hpid : e.processorID = ""
  · simp [eligibleForClaim, hpid]
  · rcases hd : e.processingDeadline with _ | d
    · simp [eligibleForClaim, hpid, hd]
    · by_cases hlt : s.now < d
      · have : ¬ d ≤ s.now := by omega
        simp [eligibleForClaim, hpid, hd, hlt, this]
      · have : d ≤ s.now := by omega
        simp [eligibleForClaim, hpid, hd, hlt, this]

/-- Folding entries that all carry the same namespace into a map already
holding that namespace only appends their messages to its group. -/
theorem foldl_insertNamespaced_single (ns : String) :
    ∀ (es : List Entry) (msgs : List Message), (∀ e ∈ es, e.nspace = ns) →
      es.foldl (fun m e => insertNamespaced m e.nspace (entryMessage e))
        [(ns, msgs)] = [(ns, msgs ++ es.map entryMessage)] := by
  intro es
  induction es with
  | nil => intro msgs _; simp
  | cons e rest ih =>
    intro msgs h
    have hns : e.nspace = ns := h e (by simp)
    have hrest : ∀ x ∈ rest, x.nspace = ns := fun x hx => h x (by simp [hx])
    simp only [List.foldl_cons]
    rw [show insertNamespaced [(ns, msgs)] e.nspace (entryMessage e) =
        [(ns, msgs ++ [entryMessage e])] by simp [insertNamespaced, hns]]
    rw [ih (msgs ++ [entryMessage e]) hrest]
    simp

/-- A non-empty batch whose entries all share one namespace builds a
one-key map holding all of the batch's messages in fetch order. -/
theorem buildNamespaced_single (es : List Entry) (ns : String)
    (hne : es ≠ []) (h : ∀ e ∈ es, e.nspace = ns) :
    buildNamespaced es = [(ns, es.map entryMessage)] := by
  cases es with
  | nil => exact absurd rfl hne
  | cons e rest =>
    have hns : e.nspace = ns := h e (by simp)
    have hrest : ∀ x ∈ rest, x.nspace = ns := fun x hx => h x (by simp [hx])
    unfold buildNamespaced
    simp only [List.foldl_cons]
    rw [show insertNamespaced [] e.nspace (entryMessage e) =
        [(ns, [entryMessage e])] by simp [insertNamespaced, hns]]
    rw [foldl_insertNamespaced_single ns rest [entryMessage e] hrest]
    simp

/-- The publish loop over a one-group map issues exactly that one call,
whether or not the publisher fails on it. -/
theorem publishPhase_singleton (pub : PubBehaviour) (ns : String)
    (msgs : List Message) :
    (publishPhase pub [(ns, msgs)]).1 = [(ns, msgs)] := by
  cases h : pub ns msgs <;> simp [publishPhase, h]

/-- An error-free publisher makes the publish loop issue every call and
report no error. -/
theorem publishPhase_of_ok (pub : PubBehaviour)
    (hpub : ∀ ns msgs, pub ns msgs = none) :
    ∀ m, publishPhase pub m = (m, none) := by
  intro m
  induction m with
  | nil => rfl
  | cons x rest ih =>
    obtain ⟨ns, msgs⟩ := x
    simp [publishPhase, hpub, ih]

/-- C2 (amended): for every non-empty fetched batch whose entries all
share a single namespace, processBatch invokes the Publisher exactly once,
passing all of the batch's messages (one message per fetched entry, in
fetch order) in that single Publish call. -/
theorem processBatch_single_namespace_one_publish (entries : List Entry)
    (ns : String) (batchSize : Int) (pub : PubBehaviour)
    (deleteOp : List String → Option String)
    (hne : entries ≠ []) (hns : ∀ e ∈ entries, e.nspace = ns) :
    (processBatch entries batchSize pub deleteOp).publishCalls =
      [(ns, entries.map entryMessage)] := by
  show (publishPhase pub (buildNamespaced entries)).1 = _
  rw [buildNamespaced_single entries ns hne hns]
  exact publishPhase_singleton pub ns (entries.map entryMessage)

/-- Witness for C2 (amended): one single-namespace entry, one publish
call carrying its message. -/
theorem processBatch_single_namespace_one_publish_witness :
    (processBatch [⟨"a", 0, "k", "v", "ns", "p", none⟩] 5
        (fun _ _ => none) (fun _ => none)).publishCalls =
      [("ns", [⟨"k", "v"⟩])] :=
  processBatch_single_namespace_one_publish
    [⟨"a", 0, "k", "v", "ns", "p", none⟩] "ns" 5
    (fun _ _ => none) (fun _ => none) (by decide) (by decide)

/-- Counterexample for C2 as stated: a batch of two entries in different
namespaces produces two Publish calls, not one. -/
theorem processBatch_two_namespaces_not_one_call :
    (processBatch [⟨"a", 0, "ka", "pa", "ns1", "p", none⟩,
        ⟨"b", 0, "kb", "pb", "ns2", "p", none⟩] 5
      (fun _ _ => none) (fun _ => none)).publishCalls.length ≠ 1 := by
  decide

/-- C3: when the publish step fails with an error that is not a positional
PublishError, no fetched entry is deleted, the delete operation is still
invoked with the empty ID set (which leaves the fake storage unchanged),
and a failing delete yields a combined error holding both the publish
error and the delete error. -/
theorem processBatch_nonPositional_failure (entries : List Entry)
    (batchSize : Int) (pub : PubBehaviour)
    (deleteOp : List String → Option String)
    (calls : List (String × List Message)) (msg : String)
    (h : publishPhase pub (buildNamespaced entries) =
      (calls, some (.other msg))) :
    (processBatch entries batchSize pub deleteOp).deleteCall = [] ∧
    (deleteOp [] = none →
      (processBatch entries batchSize pub deleteOp).error =
        some (.publishOnly (.other msg))) ∧
    (∀ d, deleteOp [] = some d →
      (processBatch entries batchSize pub deleteOp).error =
        some (.combined (.other msg) d)) ∧
    (∀ t : StorageState, deleteEntries t [] = t) := by
  refine ⟨?_, fun hd => ?_, fun d hd => ?_, fun t => ?_⟩
  · simp [processBatch, h]
  · simp [processBatch, h, hd]
  · simp [processBatch, h, hd]
  · cases t with
    | mk n es =>
      have h0 : es.filter (fun e => !(([] : List String).contains e.id)) = es :=
        List.filter_eq_self.mpr fun a _ => rfl
      simp [deleteEntries, h0]

/-- Witness for C3: one entry, a non-positional publish failure and a
failing delete produce the combined error and delete nothing. -/
theorem processBatch_nonPositional_failure_witness :
    (processBatch [⟨"a", 0, "k", "v", "", "p", none⟩] 5
        (fun _ _ => some (.other "boom"))
        (fun _ => some "dberr")).deleteCall = [] ∧
    ((fun _ : List String => some "dberr") [] = none →
      (processBatch [⟨"a", 0, "k", "v", "", "p", none⟩] 5
          (fun _ _ => some (.other "boom"))
          (fun _ => some "dberr")).error =
        some (.publishOnly (.other "boom"))) ∧
    (∀ d, (fun _ : List String => some "dberr") [] = some d →
      (processBatch [⟨"a", 0, "k", "v", "", "p", none⟩] 5
          (fun _ _ => some (.other "boom"))
          (fun _ => some "dberr")).error =
        some (.combined (.other "boom") d)) ∧
    (∀ t : StorageState, deleteEntries t [] = t) :=
  processBatch_nonPositional_failure [⟨"a", 0, "k", "v", "", "p", none⟩] 5
    (fun _ _ => some (.other "boom")) (fun _ => some "dberr")
    [("", [⟨"k", "v"⟩])] "boom" rfl

/-- C9: with one unclaimed entry keyed `test-key` carrying payload
`test-payload`, one error-free PumpOutbox pass issues exactly one message
with those bytes to the publisher and leaves the store empty. -/
theorem pumpOutbox_single_entry_scenario :
    ∃ r, pumpOutbox scenarioState "p1" 20 2000000000 (fun _ _ => none) =
        some r ∧
      r.publishCalls = [("", [⟨"test-key", "test-payload"⟩])] ∧
      r.state.entries = [] :=
  ⟨⟨1, [("", [⟨"test-key", "test-payload"⟩])], false, none, ⟨0, []⟩⟩,
    rfl, rfl, rfl⟩

/-- Counterexample for C4 as stated: with one claimable entry and batch
size one, PumpOutbox makes two process-batch calls, not
`ceil(1 / 1) = 1`. -/
theorem pumpOutbox_ceil_counterexample :
    (pumpOutbox ⟨0, [⟨"e1", 0, "k", "v", "", "", none⟩]⟩ "p" 1 2000000000
        (fun _ _ => none)).map (fun r => r.calls) = some 2 ∧
    (2 : Nat) ≠ (1 + 1 - 1) / 1 :=
  ⟨rfl, by decide⟩

/-- The fetch loop with accumulator equals a take of the filtered list:
it collects the first `batchSize - acc.length` entries owned by the
processor. -/
theorem getClaimedEntriesAux_eq (pid : String) (b : Int) :
    ∀ (l acc : List Entry), (acc.length : Int) < b →
      getClaimedEntriesAux pid b acc l =
        acc.reverse ++
          (l.filter (fun e => e.processorID == pid)).take
            (b.toNat - acc.length) := by
  intro l
  induction l with
  | nil => intro acc _; simp [getClaimedEntriesAux]
  | cons e rest ih =>
    intro acc hacc
    by_cases hm : (e.processorID == pid) = true
    · by_cases hstop : (((e :: acc).length : Int)) ≥ b
      · have htn : b.toNat - acc.length = 1 := by
          simp only [List.length_cons] at hstop
          push_cast at hstop
          omega
        simp only [getClaimedEntriesAux, hm, if_true]
        rw [if_pos hstop, htn]
        simp [List.filter_cons, hm]
      · have hlt : (((e :: acc).length : Int)) < b := by omega
        simp only [getClaimedEntriesAux, hm, if_true]
        rw [if_neg hstop, ih (e :: acc) hlt]
        have hk : b.toNat - acc.length = (b.toNat - (e :: acc).length) + 1 := by
          simp only [List.length_cons]
          simp only [List.length_cons] at hstop
          push_cast at hacc hstop
          omega
        rw [hk]
        simp [List.filter_cons, hm, List.take_succ_cons]
    · have hm' : (e.processorID == pid) = false := by simpa using hm
      simp only [getClaimedEntriesAux, hm', Bool.false_eq_true, if_false]
      rw [ih acc hacc]
      simp [List.filter_cons, hm']

/-- For a positive batch size, GetClaimedEntries returns the first
`batchSize` entries owned by the processor, in store order. -/
theorem getClaimedEntries_eq_take (s : StorageState) (pid : String)
    (b : Int) (hb : 1 ≤ b) :
    getClaimedEntries s pid b =
      (s.entries.filter (fun e => e.processorID == pid)).take b.toNat := by
  have h := getClaimedEntriesAux_eq pid b s.entries []
    (by simp; omega)
  simpa [getClaimedEntries] using h

/-- The fetched batch is a sublist of the stored entries. -/
theorem getClaimedEntries_sublist (s : StorageState) (pid : String)
    (b : Int) (hb : 1 ≤ b) :
    (getClaimedEntries s pid b).Sublist s.entries := by
  rw [getClaimedEntries_eq_take s pid b hb]
  exact (List.take_sublist _ _).trans (List.filter_sublist _)

/-- Every fetched entry is owned by the fetching processor. -/
theorem mem_getClaimedEntries_processorID (s : StorageState) (pid : String)
    (b : Int) (hb : 1 ≤ b) :
    ∀ e ∈ getClaimedEntries s pid b, e.processorID = pid := by
  intro e he
  rw [getClaimedEntries_eq_take s pid b hb] at he
  have h1 : e ∈ s.entries.filter (fun x => x.processorID == pid) :=
    List.take_subset _ _ he
  have h2 := List.of_mem_filter h1
  simpa using h2

/-- The reconciliation picks one ID per nil position: its length is the
batch length minus the number of non-nil errors. -/
theorem pick_length :
    ∀ (errs : List (Option String)) (ids : List String),
      errs.length = ids.length →
      (pickNilIDs errs ids).length =
        errs.length - errs.countP (fun o => o.isSome) := by
  intro errs
  induction errs with
  | nil => intro ids _; simp [pickNilIDs]
  | cons o errs' ih =>
    intro ids hlen
    cases ids with
    | nil => simp at hlen
    | cons i ids' =>
      have hlen' : errs'.length = ids'.length := by simpa using hlen
      have hcnt : errs'.countP (fun o => o.isSome) ≤ errs'.length :=
        List.countP_le_length _
      cases o with
      | some v =>
        rw [show pickNilIDs (some v :: errs') (i :: ids') =
          pickNilIDs errs' ids' from rfl, ih ids' hlen']
        simp [List.countP_cons]
      | none =>
        rw [show pickNilIDs (none :: errs') (i :: ids') =
          i :: pickNilIDs errs' ids' from rfl]
        simp only [List.length_cons, ih ids' hlen', List.countP_cons]
        simp
        omega

/-- The picked IDs form a sublist of the batch's ID list. -/
theorem pick_sublist :
    ∀ (errs : List (Option String)) (ids : List String),
      (pickNilIDs errs ids).Sublist ids := by
  intro errs
  induction errs with
  | nil => intro ids; simp [pickNilIDs]
  | cons o errs' ih =>
    intro ids
    cases ids with
    | nil => simp [pickNilIDs]
    | cons i ids' =>
      cases o with
      | some v =>
        rw [show pickNilIDs (some v :: errs') (i :: ids') =
          pickNilIDs errs' ids' from rfl]
        exact (ih ids').cons i
      | none =>
        rw [show pickNilIDs (none :: errs') (i :: ids') =
          i :: pickNilIDs errs' ids' from rfl]
        exact (ih ids').cons₂ i

/-- An entry paired with a nil error has its ID picked for deletion. -/
theorem pick_mem_of_none :
    ∀ (errs : List (Option String)) (L : List Entry) (a : Option String)
      (e : Entry), (a, e) ∈ errs.zip L → a = none →
      e.id ∈ pickNilIDs errs (L.map (fun x => x.id)) := by
  intro errs
  induction errs with
  | nil => intro L a e h _; simp at h
  | cons o errs' ih =>
    intro L a e hmem ha
    cases L with
    | nil => simp at hmem
    | cons x L' =>
      rw [List.zip_cons_cons, List.mem_cons] at hmem
      rw [List.map_cons]
      rcases hmem with h | h
      · simp only [Prod.mk.injEq] at h
        obtain ⟨h1, h2⟩ := h
        subst h1
        subst ha
        rw [show pickNilIDs (none :: errs') (x.id :: L'.map (fun y => y.id)) =
          x.id :: pickNilIDs errs' (L'.map (fun y => y.id)) from rfl, h2]
        exact List.mem_cons_self _ _
      · cases o with
        | some v =>
          rw [show pickNilIDs (some v :: errs')
              (x.id :: L'.map (fun y => y.id)) =
            pickNilIDs errs' (L'.map (fun y => y.id)) from rfl]
          exact ih L' a e h ha
        | none =>
          rw [show pickNilIDs (none :: errs')
              (x.id :: L'.map (fun y => y.id)) =
            x.id :: pickNilIDs errs' (L'.map (fun y => y.id)) from rfl]
          exact List.mem_cons_of_mem _ (ih L' a e h ha)

/-- In a batch with pairwise-distinct IDs, an entry paired with a non-nil
error is never picked for deletion. -/
theorem pick_not_mem_of_isSome :
    ∀ (errs : List (Option String)) (L : List Entry) (a : Option String)
      (e : Entry), (L.map (fun x => x.id)).Nodup → (a, e) ∈ errs.zip L →
      a.isSome →
      e.id ∉ pickNilIDs errs (L.map (fun x => x.id)) := by
  intro errs
  induction errs with
  | nil => intro L a e _ h _; simp at h
  | cons o errs' ih =>
    intro L a e hnd hmem hsome
    cases L with
    | nil => simp at hmem
    | cons x L' =>
      have hx : x.id ∉ L'.map (fun y => y.id) := by
        rw [List.map_cons, List.nodup_cons] at hnd
        exact hnd.1
      have hnd' : (L'.map (fun y => y.id)).Nodup := by
        rw [List.map_cons, List.nodup_cons] at hnd
        exact hnd.2
      rw [List.zip_cons_cons, List.mem_cons] at hmem
      rw [List.map_cons]
      rcases hmem with h | h
      · simp only [Prod.mk.injEq] at h
        obtain ⟨h1, h2⟩ := h
        subst h1
        subst h2
        obtain ⟨v, rfl⟩ := Option.isSome_iff_exists.mp hsome
        rw [show pickNilIDs (some v :: errs')
            (e.id :: L'.map (fun y => y.id)) =
          pickNilIDs errs' (L'.map (fun y => y.id)) from rfl]
        intro hin
        exact hx ((pick_sublist errs' (L'.map (fun y => y.id))).subset hin)
      · have heL' : e ∈ L' := (List.of_mem_zip h).2
        cases o with
        | some v =>
          rw [show pickNilIDs (some v :: errs')
              (x.id :: L'.map (fun y => y.id)) =
            pickNilIDs errs' (L'.map (fun y => y.id)) from rfl]
          exact ih L' a e hnd' h hsome
        | none =>
          rw [show pickNilIDs (none :: errs')
              (x.id :: L'.map (fun y => y.id)) =
            x.id :: pickNilIDs errs' (L'.map (fun y => y.id)) from rfl]
          intro hin
          rcases List.mem_cons.mp hin with heq | htail
          · exact hx (heq ▸ List.mem_map_of_mem (fun y => y.id) heL')
          · exact ih L' a e hnd' h hsome htail

/-- Deleting a duplicate-free sub-collection of IDs removes exactly that
many entries. -/
theorem filter_not_contains_length :
    ∀ (L : List Entry) (del : List String),
      del.Sublist (L.map (fun e => e.id)) →
      (L.map (fun e => e.id)).Nodup →
      (L.filter (fun e => !(del.contains e.id))).length =
        L.length - del.length := by
  intro L
  induction L with
  | nil =>
    intro del hsub _
    rw [List.map_nil, List.sublist_nil] at hsub
    subst hsub
    simp
  | cons x L' ih =>
    intro del hsub hnd
    have hx : x.id ∉ L'.map (fun e => e.id) := by
      rw [List.map_cons, List.nodup_cons] at hnd
      exact hnd.1
    have hnd' : (L'.map (fun e => e.id)).Nodup := by
      rw [List.map_cons, List.nodup_cons] at hnd
      exact hnd.2
    rw [List.map_cons] at hsub
    cases hsub with
    | cons _a h' =>
      have hxdel : x.id ∉ del := fun hm => hx (h'.subset hm)
      have hdlen : del.length ≤ L'.length := by
        have := h'.length_le
        simpa [List.length_map] using this
      have hhead : (!(del.contains x.id)) = true := by
        simp only [List.contains]
        simp [List.elem_iff, hxdel]
      rw [List.filter_cons]
      simp only [hhead, if_true, List.length_cons]
      rw [ih del h' hnd']
      omega
    | cons₂ _a h' =>
      rename_i del'
      have hdlen : del'.length ≤ L'.length := by
        have := h'.length_le
        simpa [List.length_map] using this
      have hhead : (!((x.id :: del').contains x.id)) = false := by
        simp [List.contains_cons]
      rw [List.filter_cons]
      simp only [hhead, Bool.false_eq_true, if_false]
      have hcong : ∀ e ∈ L',
          (!((x.id :: del').contains e.id)) = (!(del'.contains e.id)) := by
        intro e he
        have hne : e.id ≠ x.id := by
          intro hEq
          exact hx (hEq ▸ List.mem_map_of_mem (fun y => y.id) he)
        have hbeq : (e.id == x.id) = false := beq_eq_false_iff_ne.mpr hne
        simp only [List.contains_cons, hbeq, Bool.false_or]
      rw [List.filter_congr hcong, ih del' h' hnd']
      simp only [List.length_cons]
      omega

/-- C1: when a single-namespace batch of N fetched entries fails with a
positional PublishError of length N having K non-nil positions, the
reconciliation deletes exactly the N−K entries at nil positions — the
storage shrinks by exactly that many entries, every entry at a non-nil
position is still stored and still claimed by the processor, and every
entry at a nil position is gone. -/
theorem processBatch_partial_failure_precision
    (s : StorageState) (pid ns : String) (batchSize : Int)
    (pub : PubBehaviour) (errs : List (Option String))
    (hb : 1 ≤ batchSize)
    (hnodup : (s.entries.map (fun e => e.id)).Nodup)
    (hne : getClaimedEntries s pid batchSize ≠ [])
    (hns : ∀ e ∈ getClaimedEntries s pid batchSize, e.nspace = ns)
    (hpub : pub ns ((getClaimedEntries s pid batchSize).map entryMessage) =
      some (.positional errs))
    (hlen : errs.length = (getClaimedEntries s pid batchSize).length) :
    (processBatchFake s pid batchSize pub).1.deleteCall.length =
      (getClaimedEntries s pid batchSize).length -
        errs.countP (fun o => o.isSome) ∧
    (processBatchFake s pid batchSize pub).2.entries.length =
      s.entries.length -
        (processBatchFake s pid batchSize pub).1.deleteCall.length ∧
    (∀ p ∈ errs.zip (getClaimedEntries s pid batchSize), p.1.isSome →
      p.2 ∈ (processBatchFake s pid batchSize pub).2.entries ∧
        p.2.processorID = pid) ∧
    (∀ p ∈ errs.zip (getClaimedEntries s pid batchSize), p.1 = none →
      p.2.id ∉ (processBatchFake s pid batchSize pub).2.entries.map
        (fun e => e.id)) := by
  have hpp : publishPhase pub
      (buildNamespaced (getClaimedEntries s pid batchSize)) =
      ([(ns, (getClaimedEntries s pid batchSize).map entryMessage)],
        some (.positional errs)) := by
    rw [buildNamespaced_single (getClaimedEntries s pid batchSize) ns hne hns]
    simp [publishPhase, hpub]
  have hr1 : (processBatchFake s pid batchSize pub).1.deleteCall =
      pickNilIDs errs
        ((getClaimedEntries s pid batchSize).map (fun e => e.id)) := by
    simp [processBatchFake, processBatch, hpp]
  have hr2 : (processBatchFake s pid batchSize pub).2.entries =
      s.entries.filter (fun e =>
        !((pickNilIDs errs
          ((getClaimedEntries s pid batchSize).map (fun x => x.id))).contains
            e.id)) := by
    simp [processBatchFake, processBatch, hpp, deleteEntries]
  have hsubl : (getClaimedEntries s pid batchSize).Sublist s.entries :=
    getClaimedEntries_sublist s pid batchSize hb
  have hfnd : ((getClaimedEntries s pid batchSize).map
      (fun e => e.id)).Nodup :=
    List.Nodup.sublist (List.Sublist.map (fun e => e.id) hsubl) hnodup
  have hlen' : errs.length =
      ((getClaimedEntries s pid batchSize).map (fun e => e.id)).length := by
    rw [List.length_map]; exact hlen
  have hpick_sub : (pickNilIDs errs
      ((getClaimedEntries s pid batchSize).map (fun e => e.id))).Sublist
        (s.entries.map (fun e => e.id)) :=
    (pick_sublist errs _).trans (List.Sublist.map (fun e => e.id) hsubl)
  refine ⟨?_, ?_, ?_, ?_⟩
  · rw [hr1, pick_length errs _ hlen', hlen]
  · rw [hr1, hr2]
    exact filter_not_contains_length s.entries _ hpick_sub hnodup
  · rintro ⟨a, e⟩ hp hsome
    have heF : e ∈ getClaimedEntries s pid batchSize :=
      (List.of_mem_zip hp).2
    have hnotpick : e.id ∉ pickNilIDs errs
        ((getClaimedEntries s pid batchSize).map (fun x => x.id)) :=
      pick_not_mem_of_isSome errs (getClaimedEntries s pid batchSize) a e
        hfnd hp hsome
    constructor
    · rw [hr2]
      refine List.mem_filter.mpr ⟨hsubl.subset heF, ?_⟩
      simp [List.elem_iff, hnotpick]
    · exact mem_getClaimedEntries_processorID s pid batchSize hb e heF
  · rintro ⟨a, e⟩ hp ha
    have hpickmem : e.id ∈ pickNilIDs errs
        ((getClaimedEntries s pid batchSize).map (fun x => x.id)) :=
      pick_mem_of_none errs (getClaimedEntries s pid batchSize) a e hp ha
    intro hmem
    obtain ⟨x, hxmem, hxid⟩ := List.mem_map.mp hmem
    rw [hr2] at hxmem
    have hxpred := (List.mem_filter.mp hxmem).2
    have hxnot : x.id ∉ pickNilIDs errs
        ((getClaimedEntries s pid batchSize).map (fun y => y.id)) := by
      simpa [List.elem_iff] using hxpred
    exact hxnot (hxid ▸ hpickmem)

/-- Witness for C1: in a two-entry batch with the first message failing
positionally, exactly one entry is deleted, the failed entry stays stored
and claimed, and the delivered entry's ID is gone. -/
theorem processBatch_partial_failure_precision_witness :
    (processBatchFake cexTwoState "p" 5 cexPartialPub).1.deleteCall.length =
      (getClaimedEntries cexTwoState "p" 5).length -
        ([some "x", none].countP (fun o => o.isSome)) ∧
    (processBatchFake cexTwoState "p" 5 cexPartialPub).2.entries.length =
      cexTwoState.entries.length -
        (processBatchFake cexTwoState "p" 5
          cexPartialPub).1.deleteCall.length ∧
    (∀ p ∈ ([some "x", none] : List (Option String)).zip
        (getClaimedEntries cexTwoState "p" 5), p.1.isSome →
      p.2 ∈ (processBatchFake cexTwoState "p" 5 cexPartialPub).2.entries ∧
        p.2.processorID = "p") ∧
    (∀ p ∈ ([some "x", none] : List (Option String)).zip
        (getClaimedEntries cexTwoState "p" 5), p.1 = none →
      p.2.id ∉ (processBatchFake cexTwoState "p" 5
        cexPartialPub).2.entries.map (fun e => e.id)) :=
  processBatch_partial_failure_precision cexTwoState "p" "" 5 cexPartialPub
    [some "x", none] (by decide) (by decide) (by decide) (by decide) rfl
    (by decide)

/-- Deleting the IDs of the first `k` entries of a duplicate-free list
keeps exactly the entries after position `k`. -/
theorem filter_not_contains_take :
    ∀ (L : List Entry) (k : Nat), (L.map (fun e => e.id)).Nodup →
      L.filter (fun e =>
        !(((L.take k).map (fun e => e.id)).contains e.id)) = L.drop k := by
  intro L
  induction L with
  | nil => intro k _; simp
  | cons x L' ih =>
    intro k hnd
    have hx : x.id ∉ L'.map (fun e => e.id) := by
      rw [List.map_cons, List.nodup_cons] at hnd
      exact hnd.1
    have hnd' : (L'.map (fun e => e.id)).Nodup := by
      rw [List.map_cons, List.nodup_cons] at hnd
      exact hnd.2
    cases k with
    | zero => simp
    | succ k' =>
      rw [List.take_succ_cons, List.map_cons, List.drop_succ_cons]
      have hhead :
          (!((x.id :: (L'.take k').map (fun e => e.id)).contains x.id)) =
            false := by
        simp [List.contains_cons]
      rw [List.filter_cons]
      simp only [hhead, Bool.false_eq_true, if_false]
      have hcong : ∀ e ∈ L',
          (!((x.id :: (L'.take k').map (fun y => y.id)).contains e.id)) =
            (!(((L'.take k').map (fun y => y.id)).contains e.id)) := by
        intro e he
        have hne : e.id ≠ x.id := by
          intro hEq
          exact hx (hEq ▸ List.mem_map_of_mem (fun y => y.id) he)
        have hbeq : (e.id == x.id) = false := beq_eq_false_iff_ne.mpr hne
        simp only [List.contains_cons, hbeq, Bool.false_or]
      rw [List.filter_congr hcong, ih k' hnd']

/-- After deleting the IDs of the first `k` claimed entries, the claimed
entries that remain are exactly the claimed entries after position `k`. -/
theorem deleteBatch_claimed_drop (s : StorageState) (pid : String) (k : Nat)
    (hnd : (s.entries.map (fun e => e.id)).Nodup) :
    ((deleteEntries s
        (((s.entries.filter (fun e => e.processorID == pid)).take k).map
          (fun e => e.id))).entries.filter
        (fun e => e.processorID == pid)) =
      (s.entries.filter (fun e => e.processorID == pid)).drop k := by
  have hFnd : ((s.entries.filter (fun e => e.processorID == pid)).map
      (fun e => e.id)).Nodup :=
    List.Nodup.sublist (List.Sublist.map _ (List.filter_sublist _)) hnd
  show (s.entries.filter _).filter _ = _
  rw [List.filter_filter]
  rw [List.filter_congr (fun e _ => Bool.and_comm _ _)]
  rw [← List.filter_filter]
  exact filter_not_contains_take
    (s.entries.filter (fun e => e.processorID == pid)) k hFnd

/-- Claiming rewrites ownership but never changes entry IDs. -/
theorem claimEntries_map_id (s : StorageState) (pid : String) (dl : Int) :
    ((claimEntries s pid dl).entries.map (fun e => e.id)) =
      s.entries.map (fun e => e.id) := by
  show (s.entries.map _).map _ = _
  rw [List.map_map]
  refine List.map_congr_left fun e _ => ?_
  simp only [Function.comp_apply]
  split <;> rfl

/-- With a positive batch size and an error-free publisher and store, the
drain loop terminates within the fuel and makes exactly
`claimedCount / batchSize + 1` batch calls, the last reporting
`more = false` and no batch failing. -/
theorem drainLoop_complete (pid : String) (b : Int) (pub : PubBehaviour)
    (hb : 1 ≤ b) (hpub : ∀ ns msgs, pub ns msgs = none) :
    ∀ C : Nat, ∀ (s : StorageState) (fuel : Nat),
      (s.entries.map (fun e => e.id)).Nodup →
      claimedCount s pid = C → C / b.toNat < fuel →
      ∃ r, drainLoop pid b pub fuel s = some r ∧
        r.calls = C / b.toNat + 1 ∧ r.lastMore = false ∧ r.error = none := by
  intro C
  induction C using Nat.strong_induction_on with
  | _ C ih =>
    intro s fuel hnd hC hfuel
    cases fuel with
    | zero => exact absurd hfuel (Nat.not_lt_zero _)
    | succ f =>
      have hbt : 1 ≤ b.toNat := by omega
      have hfetch : getClaimedEntries s pid b =
          (s.entries.filter (fun e => e.processorID == pid)).take b.toNat :=
        getClaimedEntries_eq_take s pid b hb
      have hflen : (getClaimedEntries s pid b).length = min b.toNat C := by
        rw [hfetch, List.length_take]
        unfold claimedCount at hC
        rw [hC]
      have hpp := publishPhase_of_ok pub hpub
        (buildNamespaced (getClaimedEntries s pid b))
      have hres : processBatchFake s pid b pub =
          (⟨decide (((getClaimedEntries s pid b).length : Int) ≥ b),
            buildNamespaced (getClaimedEntries s pid b),
            (getClaimedEntries s pid b).map (fun e => e.id), none⟩,
           deleteEntries s
             ((getClaimedEntries s pid b).map (fun e => e.id))) := by
        simp [processBatchFake, processBatch, hpp]
      by_cases hlt : C < b.toNat
      · have hmore :
            decide (((getClaimedEntries s pid b).length : Int) ≥ b) =
              false := by
          rw [hflen]
          simp only [decide_eq_false_iff_not, ge_iff_le, not_le]
          omega
        have hdiv0 : C / b.toNat = 0 := Nat.div_eq_of_lt hlt
        refine ⟨⟨1, buildNamespaced (getClaimedEntries s pid b),
          false, none,
          deleteEntries s
            ((getClaimedEntries s pid b).map (fun e => e.id))⟩,
          ?_, ?_, rfl, rfl⟩
        · simp [drainLoop, hres, hmore]
        · rw [hdiv0]
      · push_neg at hlt
        have hmore :
            decide (((getClaimedEntries s pid b).length : Int) ≥ b) =
              true := by
          rw [hflen]
          simp only [decide_eq_true_eq, ge_iff_le]
          omega
        have hC' : claimedCount (deleteEntries s
            ((getClaimedEntries s pid b).map (fun e => e.id))) pid =
            C - b.toNat := by
          unfold claimedCount
          rw [hfetch, deleteBatch_claimed_drop s pid b.toNat hnd,
            List.length_drop]
          unfold claimedCount at hC
          rw [hC]
        have hsub' : ((deleteEntries s
            ((getClaimedEntries s pid b).map
              (fun e => e.id))).entries).Sublist s.entries := by
          show (s.entries.filter _).Sublist s.entries
          exact List.filter_sublist _
        have hnd' : ((deleteEntries s
            ((getClaimedEntries s pid b).map (fun e => e.id))).entries.map
              (fun e => e.id)).Nodup :=
          List.Nodup.sublist (List.Sublist.map (fun e => e.id) hsub') hnd
        have hCC : C - b.toNat < C := by omega
        have hdiv : C / b.toNat = (C - b.toNat) / b.toNat + 1 :=
          Nat.div_eq_sub_div (by omega) hlt
        have hfuel' : (C - b.toNat) / b.toNat < f := by
          have h1 : (C - b.toNat) / b.toNat + 1 < f + 1 := hdiv ▸ hfuel
          exact Nat.lt_of_succ_lt_succ h1
        obtain ⟨d, hd, hcalls, hlast, herr⟩ :=
          ih (C - b.toNat) hCC (deleteEntries s
            ((getClaimedEntries s pid b).map (fun e => e.id))) f hnd' hC'
            hfuel'
        refine ⟨⟨d.calls + 1,
          buildNamespaced (getClaimedEntries s pid b) ++ d.publishCalls,
          d.lastMore, d.error, d.state⟩, ?_, ?_, hlast, herr⟩
        · simp [drainLoop, hres, hmore, hd]
        · rw [hcalls, hdiv]

/-- C4 (amended): with a positive batch size, an error-free publisher and
the fake store, one PumpOutbox pass makes exactly
`floor(C / BatchSize) + 1` process-batch calls, where C is the number of
entries claimed by the processor after the claim step (one more than
`ceil(C / BatchSize)` whenever BatchSize divides C, including C = 0), and
the last call returns `more = false`. -/
theorem pumpOutbox_drain_calls (s : StorageState) (pid : String)
    (batchSize claimDuration : Int) (pub : PubBehaviour)
    (hb : 1 ≤ batchSize)
    (hnodup : (s.entries.map (fun e => e.id)).Nodup)
    (hpub : ∀ ns msgs, pub ns msgs = none) :
    ∃ r, pumpOutbox s pid batchSize claimDuration pub = some r ∧
      r.calls =
        claimedCount (claimEntries s pid (s.now + claimDuration)) pid /
          batchSize.toNat + 1 ∧
      r.lastMore = false ∧ r.error = none := by
  have hnd1 : ((claimEntries s pid (s.now + claimDuration)).entries.map
      (fun e => e.id)).Nodup := by
    rw [claimEntries_map_id]
    exact hnodup
  have hfuel : claimedCount (claimEntries s pid (s.now + claimDuration))
      pid / batchSize.toNat <
      (claimEntries s pid (s.now + claimDuration)).entries.length + 1 := by
    have h1 : claimedCount (claimEntries s pid (s.now + claimDuration))
        pid ≤ (claimEntries s pid (s.now + claimDuration)).entries.length :=
      List.length_filter_le _ _
    have h2 := Nat.div_le_self
      (claimedCount (claimEntries s pid (s.now + claimDuration)) pid)
      batchSize.toNat
    omega
  exact drainLoop_complete pid batchSize pub hb hpub
    (claimedCount (claimEntries s pid (s.now + claimDuration)) pid)
    (claimEntries s pid (s.now + claimDuration))
    ((claimEntries s pid (s.now + claimDuration)).entries.length + 1)
    hnd1 rfl hfuel

/-- Witness for C4 (amended): two claimed entries, batch size five — one
batch call, no more work, no error. -/
theorem pumpOutbox_drain_calls_witness :
    ∃ r, pumpOutbox cexTwoState "p" 5 2000000000 (fun _ _ => none) =
        some r ∧
      r.calls =
        claimedCount (claimEntries cexTwoState "p"
          (cexTwoState.now + 2000000000)) "p" / (5 : Int).toNat + 1 ∧
      r.lastMore = false ∧ r.error = none :=
  pumpOutbox_drain_calls cexTwoState "p" 5 2000000000 (fun _ _ => none)
    (by decide) (by decide) (fun _ _ => rfl)
